import Mathlib

/-!
Verification of the photoalbum-creator page-composition engine and crop
overlay math.

The definitions below are shallow embeddings of the TypeScript source:
* `buildPages` and its helpers embed `buildPages`, `chunk` and the
  classification loop of `src/components/AlbumLayoutPreview.tsx` (lines 22-76).
* `clampLeft` .. `clampBottom`, `scaleX`/`scaleY`, `leftW`/`rightW`/`topH`/
  `bottomH`, `effectiveCrop`, `resetCrop` and `clearCrop` embed the crop
  editor logic of `src/components/CropReview.tsx`.

JavaScript numbers that participate only in arithmetic and comparisons are
modelled as rationals; pixel dimensions of photos are positive integers and
are modelled as naturals on the layout side.
-/

namespace PhotoAlbum

/-- LayoutKind from AlbumLayoutPreview.tsx line 6: the four page templates. -/
inductive LayoutKind : Type
  | single
  | twoColumns
  | twoRows
  | grid2x2
deriving DecidableEq, Repr

/-- Optional analysis payload of a photo (AlbumLayoutPreview.tsx line 13):
the raw layout label is a free-form string (the source casts it to
`string | undefined` before inspecting it). -/
structure LayoutAnalysis : Type where
  layout : Option String
deriving DecidableEq, Repr

/-- LayoutItem from AlbumLayoutPreview.tsx lines 8-14. -/
structure LayoutItem : Type where
  id : String
  previewUrl : String
  width : ℕ
  height : ℕ
  analysis : Option LayoutAnalysis
deriving DecidableEq, Repr

/-- Page from AlbumLayoutPreview.tsx line 16. -/
structure Page : Type where
  type : LayoutKind
  items : List LayoutItem
deriving DecidableEq, Repr

/-- Model of JavaScript `String.prototype.toLowerCase` restricted to the
per-character lowering that is relevant for the ASCII labels the
classifier compares against. -/
def lowerStr (s : String) : String := String.mk (s.data.map Char.toLower)

/-- Fuel-indexed helper for `chunk`; the fuel is only an embedding device
to keep the function structurally recursive (the source loop advances by
`n` and terminates because the index grows). -/
def chunkFuel {α : Type} : ℕ → ℕ → List α → List (List α)
  | 0, _, _ => []
  | _ + 1, _, [] => []
  | fuel + 1, n, x :: xs => (x :: xs.take (n - 1)) :: chunkFuel fuel n (xs.drop (n - 1))

/-- chunk from AlbumLayoutPreview.tsx lines 22-26: split a list into
consecutive groups of `n` (the final group may be shorter). -/
def chunk {α : Type} (n : ℕ) (l : List α) : List (List α) := chunkFuel l.length n l

/-- normalize from AlbumLayoutPreview.tsx lines 34-43: case-insensitive
synonym table from the raw label to a canonical tag.  The JavaScript guard
`if (!raw) return undefined` also rejects the empty string, hence the
explicit test. -/
def normalize (it : LayoutItem) : Option LayoutKind :=
  match it.analysis.bind LayoutAnalysis.layout with
  | none => none
  | some raw =>
    if raw = "" then none
    else
      let v := lowerStr raw
      if v = "single" then some .single
      else if v = "twocolumns" ∨ v = "two-columns" ∨ v = "col" ∨ v = "column" ∨ v = "columns" then
        some .twoColumns
      else if v = "tworows" ∨ v = "two-rows" ∨ v = "row" ∨ v = "rows" then
        some .twoRows
      else if v = "grid2x2" ∨ v = "grid" ∨ v = "2x2" then
        some .grid2x2
      else none

/-- Classification of one photo as performed by the bucketing loop of
AlbumLayoutPreview.tsx lines 45-56: the normalized label when recognized,
otherwise the orientation fallback (width >= height gives twoRows,
portrait gives twoColumns). -/
def classify (it : LayoutItem) : LayoutKind :=
  match normalize it with
  | some k => k
  | none => if it.width ≥ it.height then .twoRows else .twoColumns

/-- Reference classifier transcribed from the words of the specification
(section 4.1): a present label that case-insensitively matches a synonym
yields that tag, otherwise the orientation heuristic applies. -/
def classifySpec (it : LayoutItem) : LayoutKind :=
  match it.analysis.bind LayoutAnalysis.layout with
  | some raw =>
    let v := lowerStr raw
    if v = "single" then .single
    else if v = "twocolumns" ∨ v = "two-columns" ∨ v = "col" ∨ v = "column" ∨ v = "columns" then
      .twoColumns
    else if v = "tworows" ∨ v = "two-rows" ∨ v = "row" ∨ v = "rows" then
      .twoRows
    else if v = "grid2x2" ∨ v = "grid" ∨ v = "2x2" then
      .grid2x2
    else if it.width ≥ it.height then .twoRows else .twoColumns
  | none => if it.width ≥ it.height then .twoRows else .twoColumns

/-- The four buckets filled by the loop of AlbumLayoutPreview.tsx
lines 29-32 and 45-56. -/
structure Buckets : Type where
  singles : List LayoutItem
  twoCols : List LayoutItem
  twoRows : List LayoutItem
  grid4 : List LayoutItem
deriving DecidableEq, Repr

/-- One iteration of the bucketing loop (AlbumLayoutPreview.tsx
lines 45-56): push the item onto the bucket selected by its normalized
label, or by the orientation fallback. -/
def pushItem (b : Buckets) (it : LayoutItem) : Buckets :=
  match normalize it with
  | some .single => { b with singles := b.singles ++ [it] }
  | some .twoColumns => { b with twoCols := b.twoCols ++ [it] }
  | some .twoRows => { b with twoRows := b.twoRows ++ [it] }
  | some .grid2x2 => { b with grid4 := b.grid4 ++ [it] }
  | none =>
    if it.width ≥ it.height then { b with twoRows := b.twoRows ++ [it] }
    else { b with twoCols := b.twoCols ++ [it] }

/-- The full bucketing pass over the input list. -/
def partitionItems (items : List LayoutItem) : Buckets :=
  items.foldl pushItem ⟨[], [], [], []⟩

/-- Page emission for a pair bucket (AlbumLayoutPreview.tsx lines 60-67):
full groups of 2 keep the bucket tag, a leftover group of 1 is re-tagged
as a single page. -/
def pagesOfPairs (tag : LayoutKind) (l : List LayoutItem) : List Page :=
  (chunk 2 l).map (fun pair => if pair.length = 2 then ⟨tag, pair⟩ else ⟨.single, pair⟩)

/-- Page emission for the grid bucket (AlbumLayoutPreview.tsx lines 68-73):
groups of 4 become grid pages; a leftover of 3 becomes a twoRows page of
the first two items (the third is pushed on no page); a leftover of 2
becomes a twoColumns page; a leftover of 1 becomes a single page. -/
def pagesOfQuads (l : List LayoutItem) : List Page :=
  (chunk 4 l).flatMap (fun quad =>
    if quad.length = 4 then [⟨.grid2x2, quad⟩]
    else if quad.length = 3 then [⟨.twoRows, quad.take 2⟩]
    else if quad.length = 2 then [⟨.twoColumns, quad⟩]
    else if quad.length = 1 then [⟨.single, quad⟩]
    else [])

/-- buildPages from AlbumLayoutPreview.tsx lines 28-76: bucket the items,
then emit the single pages, the twoColumns pages, the twoRows pages and
the grid pages, in that order. -/
def buildPages (items : List LayoutItem) : List Page :=
  let b := partitionItems items
  (b.singles.map (fun s => Page.mk .single [s]))
    ++ pagesOfPairs .twoColumns b.twoCols
    ++ pagesOfPairs .twoRows b.twoRows
    ++ pagesOfQuads b.grid4

/-- The ordered bucket of a tag, expressed directly as a filter of the
input by classification; the partition loop is proved equal to this. -/
def bucketOf (tag : LayoutKind) (items : List LayoutItem) : List LayoutItem :=
  items.filter (fun it => classify it == tag)

/-- Pages contributed by the single bucket. -/
def singleSeg (items : List LayoutItem) : List Page :=
  (bucketOf .single items).map (fun s => Page.mk .single [s])

/-- Pages contributed by the twoColumns bucket. -/
def colSeg (items : List LayoutItem) : List Page :=
  pagesOfPairs .twoColumns (bucketOf .twoColumns items)

/-- Pages contributed by the twoRows bucket. -/
def rowSeg (items : List LayoutItem) : List Page :=
  pagesOfPairs .twoRows (bucketOf .twoRows items)

/-- Pages contributed by the grid2x2 bucket. -/
def gridSeg (items : List LayoutItem) : List Page :=
  pagesOfQuads (bucketOf .grid2x2 items)

/-- All pages that do not come from the single bucket. -/
def restSeg (items : List LayoutItem) : List Page :=
  colSeg items ++ rowSeg items ++ gridSeg items

/-- Required item count of each page template (specification section 3). -/
def LayoutKind.cardinality : LayoutKind → ℕ
  | .single => 1
  | .twoColumns => 2
  | .twoRows => 2
  | .grid2x2 => 4

/-- EdgeCrop from CropReview.tsx lines 6-11: four optional pixel insets. -/
structure EdgeCrop : Type where
  left : Option ℚ
  right : Option ℚ
  top : Option ℚ
  bottom : Option ℚ
deriving DecidableEq, Repr

/-- The crop object with no fields set, the JavaScript empty object. -/
def emptyEdgeCrop : EdgeCrop := ⟨none, none, none, none⟩

/-- Number of set fields of a crop, the model of
`Object.keys(crop).length` on an EdgeCrop value. -/
def EdgeCrop.keyCount (c : EdgeCrop) : ℕ :=
  (if c.left.isSome then 1 else 0) + (if c.right.isSome then 1 else 0)
    + (if c.top.isSome then 1 else 0) + (if c.bottom.isSome then 1 else 0)

/-- effectiveCrop from CropReview.tsx lines 61-66: a user override is used
only when it is present and has at least one key; otherwise the suggested
crop (or the empty object) applies. -/
def effectiveCrop (userCrop : Option EdgeCrop) (suggested : Option EdgeCrop) : EdgeCrop :=
  match userCrop with
  | some u => if u.keyCount > 0 then u else suggested.getD emptyEdgeCrop
  | none => suggested.getD emptyEdgeCrop

/-- clampLeft from CropReview.tsx lines 90-97: the proposed left inset is
limited by 0 below and by width - 10 - right above, where right is the
current draft right inset (absent reads as 0). -/
def clampLeft (width : ℚ) (draftRight : Option ℚ) (val : ℚ) : ℚ :=
  max 0 (min val (width - 10 - draftRight.getD 0))

/-- clampRight from CropReview.tsx lines 99-106. -/
def clampRight (width : ℚ) (draftLeft : Option ℚ) (val : ℚ) : ℚ :=
  max 0 (min val (width - 10 - draftLeft.getD 0))

/-- clampTop from CropReview.tsx lines 108-115. -/
def clampTop (height : ℚ) (draftBottom : Option ℚ) (val : ℚ) : ℚ :=
  max 0 (min val (height - 10 - draftBottom.getD 0))

/-- clampBottom from CropReview.tsx lines 117-124. -/
def clampBottom (height : ℚ) (draftTop : Option ℚ) (val : ℚ) : ℚ :=
  max 0 (min val (height - 10 - draftTop.getD 0))

/-- scaleX from CropReview.tsx line 76: horizontal scale of the display
box relative to the photo, with a zero box width replaced by 1 (the
JavaScript `size.width || 1`). -/
def scaleX (photoWidth boxWidth : ℚ) : ℚ :=
  (if boxWidth = 0 then 1 else boxWidth) / photoWidth

/-- scaleY from CropReview.tsx line 77. -/
def scaleY (photoHeight boxHeight : ℚ) : ℚ :=
  (if boxHeight = 0 then 1 else boxHeight) / photoHeight

/-- leftW from CropReview.tsx line 79: overlay width of the left mask. -/
def leftW (draft : EdgeCrop) (photoWidth boxWidth : ℚ) : ℚ :=
  draft.left.getD 0 * scaleX photoWidth boxWidth

/-- rightW from CropReview.tsx line 80. -/
def rightW (draft : EdgeCrop) (photoWidth boxWidth : ℚ) : ℚ :=
  draft.right.getD 0 * scaleX photoWidth boxWidth

/-- topH from CropReview.tsx line 81. -/
def topH (draft : EdgeCrop) (photoHeight boxHeight : ℚ) : ℚ :=
  draft.top.getD 0 * scaleY photoHeight boxHeight

/-- bottomH from CropReview.tsx line 82. -/
def bottomH (draft : EdgeCrop) (photoHeight boxHeight : ℚ) : ℚ :=
  draft.bottom.getD 0 * scaleY photoHeight boxHeight

/-- Editor state relevant to the Reset and Clear buttons of
CropReview.tsx: the externally supplied suggestion, the persisted user
override, and the in-editor draft value. -/
structure CropState : Type where
  suggested : Option EdgeCrop
  userCrop : Option EdgeCrop
  draft : EdgeCrop
deriving DecidableEq, Repr

/-- Reset button handler, CropReview.tsx lines 269-277: the draft is set
back to the suggested crop, or to the empty object when no suggestion
exists. -/
def resetCrop (s : CropState) : CropState :=
  { s with draft := s.suggested.getD emptyEdgeCrop }

/-- Clear button handler, CropReview.tsx lines 278-286, together with the
effect of the call `onChangeCrop(current.id, null)`.  Modelled from the
spec: the parent handler receiving null is outside the repository sources;
per the spec (sections 4.3 and 6, and the source comment `remove
userCrop`) it removes the per-photo user override.  The draft is set back
to the suggested crop as in the source. -/
def clearCrop (s : CropState) : CropState :=
  { s with userCrop := none, draft := s.suggested.getD emptyEdgeCrop }

/-! ### Sample values used by the concrete witnesses -/

/-- A photo carrying an explicit grid2x2 label. -/
def gridItem (nm : String) : LayoutItem := ⟨nm, nm, 100, 100, some ⟨some "grid2x2"⟩⟩

/-- An unlabeled portrait photo; the fallback classifies it twoColumns. -/
def colItem (nm : String) : LayoutItem := ⟨nm, nm, 50, 100, none⟩

/-- An unlabeled landscape photo; the fallback classifies it twoRows. -/
def rowItem (nm : String) : LayoutItem := ⟨nm, nm, 100, 50, none⟩

/-- A landscape photo with a mixed-case hyphenated label. -/
def sampleLabeled : LayoutItem := ⟨"a", "a", 1200, 800, some ⟨some "Two-Columns"⟩⟩

/-- A portrait photo with an unrecognized label. -/
def samplePortrait : LayoutItem := ⟨"b", "b", 800, 1200, some ⟨some "foo"⟩⟩

/-- A crop-editor state with a suggestion and a user override. -/
def sampleState : CropState :=
  ⟨some ⟨some 5, none, some 3, none⟩, some ⟨some 1, none, none, none⟩, emptyEdgeCrop⟩

/-- A crop-editor state without a suggestion. -/
def sampleStateNone : CropState := ⟨none, none, emptyEdgeCrop⟩

/-! ### Basic properties of `chunk` -/

theorem chunkFuel_congr {α : Type} (n : ℕ) :
    ∀ (f₁ : ℕ) (f₂ : ℕ) (l : List α), l.length ≤ f₁ → l.length ≤ f₂ →
      chunkFuel f₁ n l = chunkFuel f₂ n l := by
  intro f₁
  induction f₁ with
  | zero =>
    intro f₂ l h₁ _
    have : l = [] := List.eq_nil_of_length_eq_zero (Nat.le_zero.mp h₁)
    subst this
    cases f₂ <;> rfl
  | succ f ih =>
    intro f₂ l h₁ h₂
    cases l with
    | nil => cases f₂ <;> rfl
    | cons x xs =>
      cases f₂ with
      | zero => simp at h₂
      | succ f₂ =>
        simp only [chunkFuel]
        rw [ih f₂ (xs.drop (n - 1)) (by simp [List.length_drop]; simp at h₁; omega)
          (by simp [List.length_drop]; simp at h₂; omega)]

theorem chunk_nil {α : Type} (n : ℕ) : chunk n ([] : List α) = [] := rfl

theorem chunk_cons {α : Type} (n : ℕ) (x : α) (xs : List α) :
    chunk n (x :: xs) = (x :: xs.take (n - 1)) :: chunk n (xs.drop (n - 1)) := by
  show chunkFuel (xs.length + 1) n (x :: xs) = _
  simp only [chunkFuel]
  rw [chunkFuel_congr n xs.length (xs.drop (n - 1)).length (xs.drop (n - 1))
    (by simp [List.length_drop]) (le_refl _)]
  rfl

theorem chunk_two_cons {α : Type} (a b : α) (t : List α) :
    chunk 2 (a :: b :: t) = [a, b] :: chunk 2 t := by
  rw [chunk_cons]
  simp

theorem chunk_flatten {α : Type} (n : ℕ) : ∀ (l : List α), (chunk n l).flatten = l
  | [] => by simp [chunk_nil]
  | x :: xs => by
    rw [chunk_cons, List.flatten_cons, chunk_flatten n (xs.drop (n - 1))]
    simp [List.take_append_drop]
termination_by l => l.length
decreasing_by simp [List.length_drop]; omega

theorem mem_of_mem_chunk {α : Type} {n : ℕ} {l : List α} {c : List α}
    (hc : c ∈ chunk n l) {y : α} (hy : y ∈ c) : y ∈ l := by
  have : y ∈ (chunk n l).flatten := List.mem_flatten.mpr ⟨c, hc, hy⟩
  rwa [chunk_flatten] at this

theorem length_of_mem_chunk {α : Type} {n : ℕ} (hn : 1 ≤ n) :
    ∀ (l : List α), ∀ c ∈ chunk n l, 1 ≤ c.length ∧ c.length ≤ n
  | [], c, hc => by simp [chunk_nil] at hc
  | x :: xs, c, hc => by
    rw [chunk_cons] at hc
    rcases List.mem_cons.mp hc with h | h
    · subst h
      constructor
      · simp
      · simp [List.length_take]
        omega
    · exact length_of_mem_chunk hn (xs.drop (n - 1)) c h
termination_by l => l.length
decreasing_by simp [List.length_drop]; omega

theorem chunk_append {α : Type} {n : ℕ} (hn : 0 < n) :
    ∀ (m : ℕ) (l₁ l₂ : List α), l₁.length = n * m →
      chunk n (l₁ ++ l₂) = chunk n l₁ ++ chunk n l₂
  | 0, l₁, l₂, h => by
    have : l₁ = [] := List.eq_nil_of_length_eq_zero (by omega)
    subst this
    simp [chunk_nil]
  | m + 1, l₁, l₂, h => by
    have hlen : l₁.length = n * m + n := by rw [h]; ring
    have hpos : 0 < l₁.length := by omega
    cases l₁ with
    | nil => simp at hpos
    | cons x xs =>
      have hxs : xs.length = n * m + n - 1 := by
        have := hlen
        simp at this
        omega
      have htk : (xs ++ l₂).take (n - 1) = xs.take (n - 1) := by
        rw [List.take_append_eq_append_take]
        have : n - 1 - xs.length = 0 := by omega
        simp [this]
      have hdp : (xs ++ l₂).drop (n - 1) = xs.drop (n - 1) ++ l₂ := by
        rw [List.drop_append_eq_append_drop]
        have : n - 1 - xs.length = 0 := by omega
        simp [this]
      rw [List.cons_append, chunk_cons, htk, hdp,
        chunk_append hn m (xs.drop (n - 1)) l₂ (by simp [List.length_drop]; omega),
        chunk_cons]
      simp

theorem chunk_full_lengths {α : Type} {n : ℕ} (hn : 0 < n) :
    ∀ (m : ℕ) (l : List α), l.length = n * m →
      (chunk n l).length = m ∧ ∀ c ∈ chunk n l, c.length = n
  | 0, l, h => by
    have : l = [] := List.eq_nil_of_length_eq_zero (by omega)
    subst this
    simp [chunk_nil]
  | m + 1, l, h => by
    have hlen : l.length = n * m + n := by rw [h]; ring
    have hpos : 0 < l.length := by omega
    cases l with
    | nil => simp at hpos
    | cons x xs =>
      have hxs : xs.length = n * m + n - 1 := by
        have := hlen
        simp at this
        omega
      have hdrop : (xs.drop (n - 1)).length = n * m := by simp [List.length_drop]; omega
      obtain ⟨ih₁, ih₂⟩ := chunk_full_lengths hn m (xs.drop (n - 1)) hdrop
      rw [chunk_cons]
      refine ⟨by simp [ih₁], ?_⟩
      intro c hc
      rcases List.mem_cons.mp hc with hcc | hcc
      · subst hcc
        simp [List.length_take]
        omega
      · exact ih₂ c hcc

theorem chunk_eq_single {α : Type} {n : ℕ} {l : List α} (hne : l ≠ [])
    (hle : l.length ≤ n) : chunk n l = [l] := by
  cases l with
  | nil => exact absurd rfl hne
  | cons x xs =>
    have hxs : xs.length ≤ n - 1 := by
      have := hle
      simp at this
      omega
    rw [chunk_cons, List.take_of_length_le hxs, List.drop_eq_nil_of_le hxs, chunk_nil]

/-! ### The bucketing loop computes the per-tag filters -/

theorem pushItem_eq_classify (b : Buckets) (it : LayoutItem) :
    pushItem b it =
      match classify it with
      | .single => { b with singles := b.singles ++ [it] }
      | .twoColumns => { b with twoCols := b.twoCols ++ [it] }
      | .twoRows => { b with twoRows := b.twoRows ++ [it] }
      | .grid2x2 => { b with grid4 := b.grid4 ++ [it] } := by
  unfold pushItem classify
  cases h : normalize it with
  | some k => cases k <;> rfl
  | none =>
    by_cases hw : it.width ≥ it.height
    · simp [hw]
    · simp [hw]

theorem foldl_pushItem_eq (items : List LayoutItem) :
    ∀ (b : Buckets), items.foldl pushItem b =
      ⟨b.singles ++ bucketOf .single items, b.twoCols ++ bucketOf .twoColumns items,
        b.twoRows ++ bucketOf .twoRows items, b.grid4 ++ bucketOf .grid2x2 items⟩ := by
  induction items with
  | nil =>
    intro b
    simp [bucketOf]
  | cons it rest ih =>
    intro b
    rw [List.foldl_cons, ih, pushItem_eq_classify]
    cases hcl : classify it <;>
      simp [bucketOf, List.filter_cons, hcl, List.append_assoc]

theorem partition_eq_filter (items : List LayoutItem) :
    partitionItems items =
      ⟨bucketOf .single items, bucketOf .twoColumns items,
        bucketOf .twoRows items, bucketOf .grid2x2 items⟩ := by
  rw [partitionItems, foldl_pushItem_eq]
  simp

theorem buildPages_decomp (items : List LayoutItem) :
    buildPages items = singleSeg items ++ colSeg items ++ rowSeg items ++ gridSeg items := by
  rw [buildPages, partition_eq_filter]
  rfl

theorem mem_bucketOf {tag : LayoutKind} {items : List LayoutItem} {it : LayoutItem}
    (h : it ∈ bucketOf tag items) : classify it = tag := by
  have := (List.mem_filter.mp h).2
  simpa using this

/-! ### The classifier agrees with the reference classifier of the spec -/

theorem classify_eq_classifySpec (it : LayoutItem) : classify it = classifySpec it := by
  unfold classify normalize classifySpec
  cases h : it.analysis.bind LayoutAnalysis.layout with
  | none => rfl
  | some raw =>
    by_cases hr : raw = ""
    · subst hr
      have h0 : lowerStr "" = "" := by decide
      have c1 : ¬ ("" = "single") := by decide
      have c2 : ¬ ("" = "twocolumns" ∨ "" = "two-columns" ∨ "" = "col" ∨ "" = "column" ∨
        "" = "columns") := by decide
      have c3 : ¬ ("" = "tworows" ∨ "" = "two-rows" ∨ "" = "row" ∨ "" = "rows") := by decide
      have c4 : ¬ ("" = "grid2x2" ∨ "" = "grid" ∨ "" = "2x2") := by decide
      simp only [if_pos rfl, h0, if_neg c1, if_neg c2, if_neg c3, if_neg c4]
      simp
    · simp only [if_neg hr]
      by_cases h1 : lowerStr raw = "single"
      · simp [h1]
      · by_cases h2 : lowerStr raw = "twocolumns" ∨ lowerStr raw = "two-columns" ∨
          lowerStr raw = "col" ∨ lowerStr raw = "column" ∨ lowerStr raw = "columns"
        · simp [h1, h2]
        · by_cases h3 : lowerStr raw = "tworows" ∨ lowerStr raw = "two-rows" ∨
            lowerStr raw = "row" ∨ lowerStr raw = "rows"
          · simp [h1, h2, h3]
          · by_cases h4 : lowerStr raw = "grid2x2" ∨ lowerStr raw = "grid" ∨
              lowerStr raw = "2x2"
            · simp [h1, h2, h3, h4]
            · simp [h1, h2, h3, h4]

/-! ### Shape lemmas for the emitted pages -/

theorem flatMap_items_of_eq {A : List (List LayoutItem)} {f : List LayoutItem → Page}
    (h : ∀ c ∈ A, (f c).items = c) : (A.map f).flatMap Page.items = A.flatten := by
  induction A with
  | nil => rfl
  | cons c A ih =>
    rw [List.map_cons, List.flatMap_cons, h c (List.mem_cons_self _ _), List.flatten_cons,
      ih (fun d hd => h d (List.mem_cons_of_mem _ hd))]

theorem flatMap_eq_map_of_singleton {A : List (List LayoutItem)}
    {f : List LayoutItem → List Page} {g : List LayoutItem → Page}
    (h : ∀ c ∈ A, f c = [g c]) : A.flatMap f = A.map g := by
  induction A with
  | nil => rfl
  | cons c A ih =>
    rw [List.flatMap_cons, h c (List.mem_cons_self _ _), List.map_cons,
      ih (fun d hd => h d (List.mem_cons_of_mem _ hd))]
    rfl

theorem pagesOfPairs_items_eq (tag : LayoutKind) (c : List LayoutItem) :
    ((if c.length = 2 then (⟨tag, c⟩ : Page) else ⟨.single, c⟩)).items = c := by
  split <;> rfl

theorem pagesOfPairs_flatMap (tag : LayoutKind) (l : List LayoutItem) :
    (pagesOfPairs tag l).flatMap Page.items = l := by
  unfold pagesOfPairs
  rw [flatMap_items_of_eq (fun c _ => pagesOfPairs_items_eq tag c), chunk_flatten]

theorem pagesOfPairs_subset {tag : LayoutKind} {l : List LayoutItem} {p : Page}
    (hp : p ∈ pagesOfPairs tag l) : ∀ y ∈ p.items, y ∈ l := by
  unfold pagesOfPairs at hp
  obtain ⟨c, hc, hfc⟩ := List.mem_map.mp hp
  intro y hy
  rw [← hfc, pagesOfPairs_items_eq] at hy
  exact mem_of_mem_chunk hc hy

theorem pagesOfQuads_subset {l : List LayoutItem} {p : Page}
    (hp : p ∈ pagesOfQuads l) : ∀ y ∈ p.items, y ∈ l := by
  unfold pagesOfQuads at hp
  obtain ⟨c, hc, hmem⟩ := List.mem_flatMap.mp hp
  intro y hy
  apply mem_of_mem_chunk hc
  split_ifs at hmem with h4 h3 h2 h1
  · simp at hmem; subst hmem; exact hy
  · simp at hmem; subst hmem; exact List.take_subset 2 c hy
  · simp at hmem; subst hmem; exact hy
  · simp at hmem; subst hmem; exact hy
  · simp at hmem

theorem pagesOfPairs_odd (tag : LayoutKind) (l : List LayoutItem) (h : l.length % 2 = 1) :
    pagesOfPairs tag l
      = (chunk 2 l.dropLast).map (fun c => Page.mk tag c)
        ++ [Page.mk .single (l.drop (l.length - 1))] := by
  have hl : l.length = 2 * (l.length / 2) + 1 := by omega
  set m := l.length / 2 with hm
  have htk : (l.take (2 * m)).length = 2 * m := by simp [List.length_take]; omega
  have hdrop_len : (l.drop (2 * m)).length = 1 := by simp [List.length_drop]; omega
  have hdl : l.dropLast = l.take (2 * m) := by
    rw [List.dropLast_eq_take]
    congr 1
    omega
  have hchunk : chunk 2 l = chunk 2 (l.take (2 * m)) ++ [l.drop (2 * m)] := by
    conv_lhs => rw [← List.take_append_drop (2 * m) l]
    rw [chunk_append (by norm_num) m _ _ htk,
      chunk_eq_single (l := l.drop (2 * m))
        (by intro hh; rw [hh] at hdrop_len; simp at hdrop_len) (by omega)]
  unfold pagesOfPairs
  rw [hchunk, List.map_append, hdl]
  congr 1
  · apply List.map_congr_left
    intro c hc
    have hc2 := (chunk_full_lengths (by norm_num) m (l.take (2 * m)) htk).2 c hc
    rw [if_pos hc2]
  · have hne : (l.drop (2 * m)).length ≠ 2 := by omega
    have h21 : l.length - 1 = 2 * m := by omega
    simp only [List.map_cons, List.map_nil, if_neg hne, h21]

theorem pagesOfQuads_rem (l : List LayoutItem) (k r : ℕ) (hr : 1 ≤ r) (hr4 : r ≤ 3)
    (h : l.length = 4 * k + r) :
    pagesOfQuads l = (chunk 4 (l.take (4 * k))).map (fun c => Page.mk .grid2x2 c)
      ++ [if r = 3 then Page.mk .twoRows ((l.drop (4 * k)).take 2)
          else if r = 2 then Page.mk .twoColumns (l.drop (4 * k))
          else Page.mk .single (l.drop (4 * k))] := by
  have htk : (l.take (4 * k)).length = 4 * k := by simp [List.length_take]; omega
  have hdrop_len : (l.drop (4 * k)).length = r := by simp [List.length_drop]; omega
  have hchunk : chunk 4 l = chunk 4 (l.take (4 * k)) ++ [l.drop (4 * k)] := by
    conv_lhs => rw [← List.take_append_drop (4 * k) l]
    rw [chunk_append (by norm_num) k _ _ htk,
      chunk_eq_single (l := l.drop (4 * k))
        (by intro hh; rw [hh] at hdrop_len; simp at hdrop_len; omega) (by omega)]
  unfold pagesOfQuads
  rw [hchunk, List.flatMap_append,
    flatMap_eq_map_of_singleton (g := fun c => Page.mk .grid2x2 c)
      (fun c hc => by
        have hc4 := (chunk_full_lengths (by norm_num) k (l.take (4 * k)) htk).2 c hc
        rw [if_pos hc4])]
  congr 1
  rcases Nat.lt_or_ge r 2 with hr2 | hr2
  · have hr1 : r = 1 := by omega
    subst hr1
    simp [List.flatMap_cons, hdrop_len]
  · rcases Nat.lt_or_ge r 3 with hr3 | hr3
    · have hr2e : r = 2 := by omega
      subst hr2e
      simp [List.flatMap_cons, hdrop_len]
    · have hr3e : r = 3 := by omega
      subst hr3e
      simp [List.flatMap_cons, hdrop_len]

theorem pagesOfQuads_rem3 (l : List LayoutItem) (k : ℕ) (h : l.length = 4 * k + 3) :
    pagesOfQuads l = (chunk 4 (l.take (4 * k))).map (fun c => Page.mk .grid2x2 c)
      ++ [Page.mk .twoRows ((l.drop (4 * k)).take 2)] := by
  have := pagesOfQuads_rem l k 3 (by norm_num) (by norm_num) h
  simpa using this

theorem pagesOfQuads_rem2 (l : List LayoutItem) (k : ℕ) (h : l.length = 4 * k + 2) :
    pagesOfQuads l = (chunk 4 (l.take (4 * k))).map (fun c => Page.mk .grid2x2 c)
      ++ [Page.mk .twoColumns (l.drop (4 * k))] := by
  have := pagesOfQuads_rem l k 2 (by norm_num) (by norm_num) h
  simpa using this

theorem pagesOfQuads_rem1 (l : List LayoutItem) (k : ℕ) (h : l.length = 4 * k + 1) :
    pagesOfQuads l = (chunk 4 (l.take (4 * k))).map (fun c => Page.mk .grid2x2 c)
      ++ [Page.mk .single (l.drop (4 * k))] := by
  have := pagesOfQuads_rem l k 1 (by norm_num) (by norm_num) h
  simpa using this

theorem pagesOfPairs_odd_pack (tag : LayoutKind) (l : List LayoutItem)
    (h : l.length % 2 = 1) :
    pagesOfPairs tag l
        = (chunk 2 l.dropLast).map (fun c => Page.mk tag c)
          ++ [Page.mk .single (l.drop (l.length - 1))]
      ∧ (chunk 2 l.dropLast).length = (l.length - 1) / 2
      ∧ (chunk 2 l.dropLast).all (fun c => c.length == 2) = true := by
  have hdl_len : l.dropLast.length = 2 * ((l.length - 1) / 2) := by
    simp [List.length_dropLast]
    omega
  obtain ⟨hlen, hfull⟩ :=
    chunk_full_lengths (by norm_num) ((l.length - 1) / 2) l.dropLast hdl_len
  refine ⟨pagesOfPairs_odd tag l h, hlen, ?_⟩
  rw [List.all_eq_true]
  intro c hc
  simpa using hfull c hc

theorem pagesOfPairs_card {tag : LayoutKind} (htag : tag.cardinality = 2)
    {l : List LayoutItem} {p : Page} (hp : p ∈ pagesOfPairs tag l) :
    p.items.length = p.type.cardinality := by
  unfold pagesOfPairs at hp
  obtain ⟨c, hc, hfc⟩ := List.mem_map.mp hp
  obtain ⟨hb1, hb2⟩ := length_of_mem_chunk (by norm_num) l c hc
  by_cases hl2 : c.length = 2
  · rw [if_pos hl2] at hfc
    subst hfc
    simpa [htag] using hl2
  · rw [if_neg hl2] at hfc
    subst hfc
    simp [LayoutKind.cardinality]
    omega

theorem pagesOfQuads_card {l : List LayoutItem} {p : Page} (hp : p ∈ pagesOfQuads l) :
    p.items.length = p.type.cardinality := by
  unfold pagesOfQuads at hp
  obtain ⟨c, hc, hmem⟩ := List.mem_flatMap.mp hp
  obtain ⟨hb1, hb4⟩ := length_of_mem_chunk (by norm_num) l c hc
  split_ifs at hmem with h4 h3 h2 h1
  · simp at hmem
    subst hmem
    simp [LayoutKind.cardinality, h4]
  · simp at hmem
    subst hmem
    simp [LayoutKind.cardinality, List.length_take]
    omega
  · simp at hmem
    subst hmem
    simp [LayoutKind.cardinality, h2]
  · simp at hmem
    subst hmem
    simp [LayoutKind.cardinality, h1]
  · simp at hmem

/-! ### Claim theorems -/

/-- C6: for every input photo list, the output of the Page Assembler is the
concatenation of the pages produced from the single bucket, then the
twoColumns bucket, then the twoRows bucket, then the grid2x2 bucket;
pages are never interleaved by original photo order. -/
theorem pages_grouped_by_bucket (items : List LayoutItem) :
    buildPages items = singleSeg items ++ colSeg items ++ rowSeg items ++ gridSeg items :=
  buildPages_decomp items

/-- C9: every page emitted by the Page Assembler holds exactly as many
photos as its tag's required cardinality (1, 2, 2 and 4 for single,
twoColumns, twoRows and grid2x2), the re-tagged remainder pages
included. -/
theorem page_card_invariant (items : List LayoutItem) :
    (buildPages items).all (fun p => p.items.length == p.type.cardinality) = true := by
  rw [List.all_eq_true]
  intro p hp
  rw [buildPages_decomp] at hp
  simp only [List.mem_append] at hp
  have hcard : p.items.length = p.type.cardinality := by
    rcases hp with ((hp | hp) | hp) | hp
    · obtain ⟨s, _, hfc⟩ := List.mem_map.mp hp
      subst hfc
      simp [LayoutKind.cardinality]
    · exact pagesOfPairs_card (show LayoutKind.cardinality .twoColumns = 2 from rfl) hp
    · exact pagesOfPairs_card (show LayoutKind.cardinality .twoRows = 2 from rfl) hp
    · exact pagesOfQuads_card hp
  simpa using hcard

/-- C7: every photo classified single yields exactly one single page with
exactly that photo, and those pages come first, in the photos' original
relative order; the empty input yields the empty page sequence, and no
single-classified photo occurs on any later page. -/
theorem single_bucket_pages (items : List LayoutItem) :
    buildPages ([] : List LayoutItem) = []
      ∧ buildPages items
          = (items.filter (fun it => classify it == LayoutKind.single)).map
              (fun s => Page.mk .single [s]) ++ restSeg items
      ∧ (restSeg items).all
          (fun pg => pg.items.all (fun s => !(classify s == LayoutKind.single))) = true := by
  refine ⟨rfl, ?_, ?_⟩
  · rw [buildPages_decomp]
    simp [singleSeg, bucketOf, restSeg, List.append_assoc]
  · rw [List.all_eq_true]
    intro pg hpg
    rw [List.all_eq_true]
    intro s hs
    have hne : classify s ≠ LayoutKind.single := by
      simp only [restSeg, List.mem_append] at hpg
      rcases hpg with (hpg | hpg) | hpg
      · have := mem_bucketOf (pagesOfPairs_subset hpg s hs)
        simp [this]
      · have := mem_bucketOf (pagesOfPairs_subset hpg s hs)
        simp [this]
      · have := mem_bucketOf (pagesOfQuads_subset hpg s hs)
        simp [this]
    simpa using hne

/-- C5: each overlay offset equals the corresponding crop inset times its
axis's scale factor, where the scale factor is the box extent (with 1
substituted for a zero-sized box) divided by the photo extent; an absent
inset contributes an offset of 0. -/
theorem overlay_offsets_scale (pw ph bw bh : ℚ) (crop : EdgeCrop) :
    leftW crop pw bw = crop.left.getD 0 * ((if bw = 0 then 1 else bw) / pw)
      ∧ rightW crop pw bw = crop.right.getD 0 * ((if bw = 0 then 1 else bw) / pw)
      ∧ topH crop ph bh = crop.top.getD 0 * ((if bh = 0 then 1 else bh) / ph)
      ∧ bottomH crop ph bh = crop.bottom.getD 0 * ((if bh = 0 then 1 else bh) / ph)
      ∧ leftW ⟨none, crop.right, crop.top, crop.bottom⟩ pw bw = 0
      ∧ rightW ⟨crop.left, none, crop.top, crop.bottom⟩ pw bw = 0
      ∧ topH ⟨crop.left, crop.right, none, crop.bottom⟩ ph bh = 0
      ∧ bottomH ⟨crop.left, crop.right, crop.top, none⟩ ph bh = 0 := by
  refine ⟨rfl, rfl, rfl, rfl, ?_, ?_, ?_, ?_⟩ <;>
    simp [leftW, rightW, topH, bottomH]

/-- C10: a user override that is present but has no field set is treated
exactly like an absent override: the effective crop falls back to the
suggested crop (or the empty crop when there is none). -/
theorem empty_override_ignored (suggested : Option EdgeCrop) :
    effectiveCrop (some emptyEdgeCrop) suggested = suggested.getD emptyEdgeCrop
      ∧ effectiveCrop (some emptyEdgeCrop) suggested = effectiveCrop none suggested := by
  constructor <;> simp [effectiveCrop, emptyEdgeCrop, EdgeCrop.keyCount]

/-- C4: for each edge, the accepted slider value is the proposal clamped
to the interval from 0 to axis size minus 10 minus the opposite edge's
current inset; with photo width 1000 and right inset 400, a proposal above
590 is accepted as 590 and a negative proposal is accepted as 0. -/
theorem crop_clamp_contract (w h v v₁ v₂ : ℚ) (crop : EdgeCrop)
    (hv₁ : v₁ > 590) (hv₂ : v₂ < 0) :
    clampLeft w crop.right v = max 0 (min v (w - 10 - crop.right.getD 0))
      ∧ clampRight w crop.left v = max 0 (min v (w - 10 - crop.left.getD 0))
      ∧ clampTop h crop.bottom v = max 0 (min v (h - 10 - crop.bottom.getD 0))
      ∧ clampBottom h crop.top v = max 0 (min v (h - 10 - crop.top.getD 0))
      ∧ clampLeft 1000 (some 400) v₁ = 590
      ∧ clampLeft 1000 (some 400) v₂ = 0 := by
  refine ⟨rfl, rfl, rfl, rfl, ?_, ?_⟩
  · unfold clampLeft
    rw [show (1000 : ℚ) - 10 - (some (400 : ℚ)).getD 0 = 590 by norm_num,
      min_eq_right hv₁.le, max_eq_right]
    norm_num
  · unfold clampLeft
    rw [show (1000 : ℚ) - 10 - (some (400 : ℚ)).getD 0 = 590 by norm_num,
      min_eq_left (by linarith), max_eq_left hv₂.le]

/-- Witness for C4 at width 1000, right inset 400, proposals 7, 600
and -5. -/
theorem crop_clamp_contract_witness :
    (600 : ℚ) > 590 ∧ (-5 : ℚ) < 0
      ∧ (clampLeft 1000 emptyEdgeCrop.right 7
            = max 0 (min 7 (1000 - 10 - emptyEdgeCrop.right.getD 0))
          ∧ clampRight 1000 emptyEdgeCrop.left 7
            = max 0 (min 7 (1000 - 10 - emptyEdgeCrop.left.getD 0))
          ∧ clampTop 800 emptyEdgeCrop.bottom 7
            = max 0 (min 7 (800 - 10 - emptyEdgeCrop.bottom.getD 0))
          ∧ clampBottom 800 emptyEdgeCrop.top 7
            = max 0 (min 7 (800 - 10 - emptyEdgeCrop.top.getD 0))
          ∧ clampLeft 1000 (some 400) 600 = 590
          ∧ clampLeft 1000 (some 400) (-5) = 0) :=
  ⟨by norm_num, by norm_num,
    crop_clamp_contract 1000 800 7 600 (-5) emptyEdgeCrop (by norm_num) (by norm_num)⟩

/-- C8: resetting sets the editing crop back to the suggested crop (to
all-zero effective insets when no suggestion exists), and clearing removes
the user override, after which the effective crop is the originally
suggested crop (or the empty crop if none was suggested). -/
theorem reset_clear_crop (s t : CropState) (ht : t.suggested = none) :
    (resetCrop s).draft = s.suggested.getD emptyEdgeCrop
      ∧ (resetCrop t).draft.left.getD 0 = 0
      ∧ (resetCrop t).draft.right.getD 0 = 0
      ∧ (resetCrop t).draft.top.getD 0 = 0
      ∧ (resetCrop t).draft.bottom.getD 0 = 0
      ∧ (clearCrop s).userCrop = none
      ∧ effectiveCrop (clearCrop s).userCrop (clearCrop s).suggested
          = s.suggested.getD emptyEdgeCrop := by
  refine ⟨rfl, ?_, ?_, ?_, ?_, rfl, rfl⟩ <;> simp [resetCrop, ht, emptyEdgeCrop]

/-- Witness for C8 at a state with a suggestion and override, and a state
with neither. -/
theorem reset_clear_crop_witness :
    sampleStateNone.suggested = none
      ∧ ((resetCrop sampleState).draft = sampleState.suggested.getD emptyEdgeCrop
          ∧ (resetCrop sampleStateNone).draft.left.getD 0 = 0
          ∧ (resetCrop sampleStateNone).draft.right.getD 0 = 0
          ∧ (resetCrop sampleStateNone).draft.top.getD 0 = 0
          ∧ (resetCrop sampleStateNone).draft.bottom.getD 0 = 0
          ∧ (clearCrop sampleState).userCrop = none
          ∧ effectiveCrop (clearCrop sampleState).userCrop (clearCrop sampleState).suggested
              = sampleState.suggested.getD emptyEdgeCrop) :=
  ⟨rfl, reset_clear_crop sampleState sampleStateNone rfl⟩

/-- C3: the classifier agrees with the reference definition everywhere (a
recognized label wins, case-insensitively, over the synonym table, and
otherwise the orientation fallback applies), and on any photo whose label
does not normalize the result is the orientation fallback, which is never
single and never grid2x2. -/
theorem classifier_normalizes (it jt : LayoutItem) (hj : normalize jt = none) :
    classify it = classifySpec it
      ∧ classify jt
          = (if jt.width ≥ jt.height then LayoutKind.twoRows else LayoutKind.twoColumns)
      ∧ classify jt ≠ LayoutKind.single
      ∧ classify jt ≠ LayoutKind.grid2x2 := by
  have h2 : classify jt
      = if jt.width ≥ jt.height then LayoutKind.twoRows else LayoutKind.twoColumns := by
    unfold classify
    rw [hj]
  refine ⟨classify_eq_classifySpec it, h2, ?_, ?_⟩ <;> rw [h2] <;> split <;> simp

/-- Witness for C3 at a mixed-case hyphenated label and at an
unrecognized label on a portrait photo. -/
theorem classifier_normalizes_witness :
    normalize samplePortrait = none
      ∧ (classify sampleLabeled = classifySpec sampleLabeled
          ∧ classify samplePortrait
              = (if samplePortrait.width ≥ samplePortrait.height then LayoutKind.twoRows
                 else LayoutKind.twoColumns)
          ∧ classify samplePortrait ≠ LayoutKind.single
          ∧ classify samplePortrait ≠ LayoutKind.grid2x2) :=
  ⟨by decide, classifier_normalizes sampleLabeled samplePortrait (by decide)⟩

/-- C2: for an odd-sized twoColumns bucket (and symmetrically for
twoRows), the Assembler emits (n-1)/2 full pages of the bucket's tag with
2 items each, in bucket order, followed by one single page holding the
bucket's last photo, and no photo of the bucket is dropped. -/
theorem odd_pair_bucket_pages (xs ys : List LayoutItem)
    (hx : (bucketOf .twoColumns xs).length % 2 = 1)
    (hy : (bucketOf .twoRows ys).length % 2 = 1) :
    buildPages xs
        = singleSeg xs ++ pagesOfPairs .twoColumns (bucketOf .twoColumns xs)
          ++ rowSeg xs ++ gridSeg xs
      ∧ pagesOfPairs .twoColumns (bucketOf .twoColumns xs)
          = (chunk 2 (bucketOf .twoColumns xs).dropLast).map (fun c => Page.mk .twoColumns c)
            ++ [Page.mk .single
                ((bucketOf .twoColumns xs).drop ((bucketOf .twoColumns xs).length - 1))]
      ∧ (chunk 2 (bucketOf .twoColumns xs).dropLast).length
          = ((bucketOf .twoColumns xs).length - 1) / 2
      ∧ (chunk 2 (bucketOf .twoColumns xs).dropLast).all (fun c => c.length == 2) = true
      ∧ (pagesOfPairs .twoColumns (bucketOf .twoColumns xs)).flatMap Page.items
          = bucketOf .twoColumns xs
      ∧ buildPages ys
          = singleSeg ys ++ colSeg ys ++ pagesOfPairs .twoRows (bucketOf .twoRows ys)
            ++ gridSeg ys
      ∧ pagesOfPairs .twoRows (bucketOf .twoRows ys)
          = (chunk 2 (bucketOf .twoRows ys).dropLast).map (fun c => Page.mk .twoRows c)
            ++ [Page.mk .single
                ((bucketOf .twoRows ys).drop ((bucketOf .twoRows ys).length - 1))]
      ∧ (chunk 2 (bucketOf .twoRows ys).dropLast).length
          = ((bucketOf .twoRows ys).length - 1) / 2
      ∧ (chunk 2 (bucketOf .twoRows ys).dropLast).all (fun c => c.length == 2) = true
      ∧ (pagesOfPairs .twoRows (bucketOf .twoRows ys)).flatMap Page.items
          = bucketOf .twoRows ys := by
  obtain ⟨pe₁, pl₁, pa₁⟩ := pagesOfPairs_odd_pack .twoColumns (bucketOf .twoColumns xs) hx
  obtain ⟨pe₂, pl₂, pa₂⟩ := pagesOfPairs_odd_pack .twoRows (bucketOf .twoRows ys) hy
  exact ⟨buildPages_decomp xs, pe₁, pl₁, pa₁, pagesOfPairs_flatMap _ _,
    buildPages_decomp ys, pe₂, pl₂, pa₂, pagesOfPairs_flatMap _ _⟩

/-- Witness for C2 at a one-photo twoColumns bucket and a one-photo
twoRows bucket. -/
theorem odd_pair_bucket_pages_witness :
    (bucketOf .twoColumns [colItem "a"]).length % 2 = 1
      ∧ (bucketOf .twoRows [rowItem "b"]).length % 2 = 1
      ∧ (buildPages [colItem "a"]
            = singleSeg [colItem "a"]
              ++ pagesOfPairs .twoColumns (bucketOf .twoColumns [colItem "a"])
              ++ rowSeg [colItem "a"] ++ gridSeg [colItem "a"]
          ∧ pagesOfPairs .twoColumns (bucketOf .twoColumns [colItem "a"])
              = (chunk 2 (bucketOf .twoColumns [colItem "a"]).dropLast).map
                  (fun c => Page.mk .twoColumns c)
                ++ [Page.mk .single
                    ((bucketOf .twoColumns [colItem "a"]).drop
                      ((bucketOf .twoColumns [colItem "a"]).length - 1))]
          ∧ (chunk 2 (bucketOf .twoColumns [colItem "a"]).dropLast).length
              = ((bucketOf .twoColumns [colItem "a"]).length - 1) / 2
          ∧ (chunk 2 (bucketOf .twoColumns [colItem "a"]).dropLast).all
              (fun c => c.length == 2) = true
          ∧ (pagesOfPairs .twoColumns (bucketOf .twoColumns [colItem "a"])).flatMap Page.items
              = bucketOf .twoColumns [colItem "a"]
          ∧ buildPages [rowItem "b"]
              = singleSeg [rowItem "b"] ++ colSeg [rowItem "b"]
                ++ pagesOfPairs .twoRows (bucketOf .twoRows [rowItem "b"])
                ++ gridSeg [rowItem "b"]
          ∧ pagesOfPairs .twoRows (bucketOf .twoRows [rowItem "b"])
              = (chunk 2 (bucketOf .twoRows [rowItem "b"]).dropLast).map
                  (fun c => Page.mk .twoRows c)
                ++ [Page.mk .single
                    ((bucketOf .twoRows [rowItem "b"]).drop
                      ((bucketOf .twoRows [rowItem "b"]).length - 1))]
          ∧ (chunk 2 (bucketOf .twoRows [rowItem "b"]).dropLast).length
              = ((bucketOf .twoRows [rowItem "b"]).length - 1) / 2
          ∧ (chunk 2 (bucketOf .twoRows [rowItem "b"]).dropLast).all
              (fun c => c.length == 2) = true
          ∧ (pagesOfPairs .twoRows (bucketOf .twoRows [rowItem "b"])).flatMap Page.items
              = bucketOf .twoRows [rowItem "b"]) :=
  ⟨by decide, by decide,
    odd_pair_bucket_pages [colItem "a"] [rowItem "b"] (by decide) (by decide)⟩

theorem buildPages_getLast (items : List LayoutItem) (A : List Page) (p : Page)
    (h : pagesOfQuads (bucketOf .grid2x2 items) = A ++ [p]) :
    (buildPages items).getLast? = some p := by
  rw [buildPages_decomp, show gridSeg items = A ++ [p] from h]
  simp [List.getLast?_append, List.getLast?_concat]

theorem grid_dropped_not_on_pages (xs : List LayoutItem) (k : ℕ)
    (h : (bucketOf .grid2x2 xs).length = 4 * k + 3)
    (hnd : (bucketOf .grid2x2 xs).Nodup)
    {x : LayoutItem} (hx : x ∈ (bucketOf .grid2x2 xs).drop (4 * k + 2))
    {p : Page} (hp : p ∈ buildPages xs) : x ∉ p.items := by
  intro hmem
  have hxg : x ∈ bucketOf .grid2x2 xs := List.drop_subset _ _ hx
  have hcx : classify x = .grid2x2 := mem_bucketOf hxg
  rw [buildPages_decomp] at hp
  simp only [List.mem_append] at hp
  rcases hp with ((hp | hp) | hp) | hp
  · obtain ⟨s, hsmem, hfc⟩ := List.mem_map.mp hp
    subst hfc
    simp only [List.mem_singleton] at hmem
    subst hmem
    have := mem_bucketOf hsmem
    rw [hcx] at this
    exact LayoutKind.noConfusion this
  · have := mem_bucketOf (pagesOfPairs_subset hp x hmem)
    rw [hcx] at this
    exact LayoutKind.noConfusion this
  · have := mem_bucketOf (pagesOfPairs_subset hp x hmem)
    rw [hcx] at this
    exact LayoutKind.noConfusion this
  · have hrem := pagesOfQuads_rem3 (bucketOf .grid2x2 xs) k h
    rw [show gridSeg xs = pagesOfQuads (bucketOf .grid2x2 xs) from rfl, hrem,
      List.mem_append] at hp
    have hnd2 : ((bucketOf .grid2x2 xs).take (4 * k)
        ++ (bucketOf .grid2x2 xs).drop (4 * k)).Nodup := by
      rw [List.take_append_drop]
      exact hnd
    have hdisj := (List.nodup_append.mp hnd2).2.2
    have hx' : x ∈ (bucketOf .grid2x2 xs).drop (4 * k) := by
      apply List.drop_subset 2
      rw [List.drop_drop]
      exact hx
    rcases hp with hp | hp
    · obtain ⟨c, hc, hfc⟩ := List.mem_map.mp hp
      subst hfc
      have hxtake : x ∈ (bucketOf .grid2x2 xs).take (4 * k) := mem_of_mem_chunk hc hmem
      exact hdisj hxtake hx'
    · simp only [List.mem_singleton] at hp
      subst hp
      have hLnd : ((bucketOf .grid2x2 xs).drop (4 * k)).Nodup :=
        (List.drop_sublist _ _).nodup hnd
      have hnd3 : (((bucketOf .grid2x2 xs).drop (4 * k)).take 2
          ++ ((bucketOf .grid2x2 xs).drop (4 * k)).drop 2).Nodup := by
        rw [List.take_append_drop]
        exact hLnd
      have hdisj2 := (List.nodup_append.mp hnd3).2.2
      have hx2 : x ∈ ((bucketOf .grid2x2 xs).drop (4 * k)).drop 2 := by
        rw [List.drop_drop]
        exact hx
      exact hdisj2 hmem hx2

/-- C1: for a grid2x2 bucket of size 4k+3, the last grid-bucket page (the
last page overall) is a twoRows page with exactly the first two of the
three leftover photos, and the third leftover appears on no output page;
for size 4k+2 the last page is a twoColumns page with both leftovers, and
for size 4k+1 it is a single page with the one leftover. -/
theorem grid_remainder_pages (xs ys zs : List LayoutItem) (k₁ k₂ k₃ : ℕ)
    (h₁ : (bucketOf .grid2x2 xs).length = 4 * k₁ + 3)
    (hnd : (bucketOf .grid2x2 xs).Nodup)
    (h₂ : (bucketOf .grid2x2 ys).length = 4 * k₂ + 2)
    (h₃ : (bucketOf .grid2x2 zs).length = 4 * k₃ + 1) :
    (buildPages xs).getLast?
        = some (Page.mk .twoRows (((bucketOf .grid2x2 xs).drop (4 * k₁)).take 2))
      ∧ ((bucketOf .grid2x2 xs).drop (4 * k₁ + 2)).all
          (fun x => (buildPages xs).all (fun p => !(p.items.contains x))) = true
      ∧ (buildPages ys).getLast?
          = some (Page.mk .twoColumns ((bucketOf .grid2x2 ys).drop (4 * k₂)))
      ∧ (buildPages zs).getLast?
          = some (Page.mk .single ((bucketOf .grid2x2 zs).drop (4 * k₃))) := by
  refine ⟨buildPages_getLast xs _ _ (pagesOfQuads_rem3 _ k₁ h₁), ?_,
    buildPages_getLast ys _ _ (pagesOfQuads_rem2 _ k₂ h₂),
    buildPages_getLast zs _ _ (pagesOfQuads_rem1 _ k₃ h₃)⟩
  rw [List.all_eq_true]
  intro x hx
  rw [List.all_eq_true]
  intro p hp
  have := grid_dropped_not_on_pages xs k₁ h₁ hnd hx hp
  simp [this]

/-- Witness for C1 at grid buckets of sizes 3, 2 and 1. -/
theorem grid_remainder_pages_witness :
    (bucketOf .grid2x2 [gridItem "a", gridItem "b", gridItem "c"]).length = 4 * 0 + 3
      ∧ (bucketOf .grid2x2 [gridItem "a", gridItem "b", gridItem "c"]).Nodup
      ∧ (bucketOf .grid2x2 [gridItem "d", gridItem "e"]).length = 4 * 0 + 2
      ∧ (bucketOf .grid2x2 [gridItem "f"]).length = 4 * 0 + 1
      ∧ ((buildPages [gridItem "a", gridItem "b", gridItem "c"]).getLast?
            = some (Page.mk .twoRows
                (((bucketOf .grid2x2 [gridItem "a", gridItem "b", gridItem "c"]).drop
                  (4 * 0)).take 2))
          ∧ ((bucketOf .grid2x2 [gridItem "a", gridItem "b", gridItem "c"]).drop
              (4 * 0 + 2)).all
              (fun x => (buildPages [gridItem "a", gridItem "b", gridItem "c"]).all
                (fun p => !(p.items.contains x))) = true
          ∧ (buildPages [gridItem "d", gridItem "e"]).getLast?
              = some (Page.mk .twoColumns
                  ((bucketOf .grid2x2 [gridItem "d", gridItem "e"]).drop (4 * 0)))
          ∧ (buildPages [gridItem "f"]).getLast?
              = some (Page.mk .single
                  ((bucketOf .grid2x2 [gridItem "f"]).drop (4 * 0)))) :=
  ⟨by decide, by decide, by decide, by decide,
    grid_remainder_pages [gridItem "a", gridItem "b", gridItem "c"]
      [gridItem "d", gridItem "e"] [gridItem "f"] 0 0 0
      (by decide) (by decide) (by decide) (by decide)⟩

end PhotoAlbum
